import Mathlib

/-!
Shallow embedding of the throughput-series pipeline of
`src/crusader-lib/src/plot.rs` (crusader).

Modelling conventions:
* `u64` microsecond timestamps are embedded as `Nat`.  The additions the
  source performs on timestamps (`last + interval - 1`, `last + 1`) only
  wrap at magnitudes around 2^64 microseconds (hundreds of millennia), so
  the embedding uses exact natural arithmetic.
* `f64` sample values are embedded as `ℚ` (exact arithmetic); the claims
  settled over values concern structure, convexity and small exact
  dyadic/decimal computations, all exact in `f64` as well.  The one place
  where genuine floating-point behaviour matters (NaN/infinity handling in
  `float_max`) uses a dedicated type `F` mirroring `f64`'s value classes.
* Panicking control flow (`panic!("unexpected index")`, `step_by(0)`,
  `Option::unwrap` on `None`) is embedded as `Option`, `none` meaning the
  Rust code panics.
-/

/-- A sample: `(u64 microsecond timestamp, f64 value)` from the source,
embedded as `Nat × ℚ`. -/
abbrev Sample := Nat × ℚ

/-- A series of samples, `Vec<(u64, f64)>` in the source. -/
abbrev Series := List Sample

/-- The timestamps of a series are non-decreasing: the `Series` invariant
of the data model. -/
def TimeSorted (s : Series) : Prop :=
  s.Pairwise (fun a b => a.fst ≤ b.fst)

instance : DecidablePred TimeSorted := fun s =>
  List.instDecidablePairwise s

/-- Embeds the Rust iterator `(lo..=hi).step_by(step)` for `step > 0`:
the values `lo, lo + step, ...` not exceeding `hi`.  (For `step = 0` the
Rust iterator panics at construction; callers in this file guard that
case separately.) -/
def gridPoints (lo hi step : Nat) : List Nat :=
  if lo ≤ hi then (List.range ((hi - lo) / step + 1)).map (fun k => lo + k * step)
  else []

/-- Embeds `iter.min().unwrap_or(0)` on a list of naturals. -/
def listMin0 : List Nat → Nat
  | [] => 0
  | x :: xs => xs.foldl Nat.min x

/-- Embeds `iter.max().unwrap_or(0)` on a list of naturals. -/
def listMax0 : List Nat → Nat
  | [] => 0
  | x :: xs => xs.foldl Nat.max x

/-- Embeds `input.partition_point(|e| e.0 < point)` from `interpolate`:
the index of the first sample whose timestamp is `≥ point` (Rust's
`partition_point` binary search, whose result on the time-sorted slices
the source feeds it is exactly this index; `length` if there is none). -/
def partitionPoint (input : Series) (point : Nat) : Nat :=
  input.findIdx (fun e => point ≤ e.fst)

/-- The value `interpolate` computes for one grid `point` (the body of its
`for` loop in `plot.rs` lines 313–329): flat extrapolation past the end,
exact hit or flat extrapolation before the start, otherwise linear
interpolation between the two neighbouring input samples (taking the right
neighbour when the two timestamps coincide, avoiding division by zero). -/
def interpValue (input : Series) (point : Nat) : ℚ :=
  let i := partitionPoint input point
  if i = input.length then
    ((input.getLast?).map Prod.snd).getD 0
  else if (input.getD i (0, 0)).fst = point ∨ i = 0 then
    (input.getD i (0, 0)).snd
  else
    let prev := input.getD (i - 1) (0, 0)
    let cur := input.getD i (0, 0)
    let len := cur.fst - prev.fst
    if len = 0 then cur.snd
    else prev.snd + (cur.snd - prev.snd) * (((point - prev.fst : Nat) : ℚ) / (len : ℚ))

/-- The lower grid bound of `interpolate`:
`input.first().unwrap().0 / interval * interval`. -/
def gridMin (input : Series) (interval : Nat) : Nat :=
  (input.head?.getD (0, 0)).fst / interval * interval

/-- The upper grid bound of `interpolate`:
`(input.last().unwrap().0 + interval - 1) / interval * interval`. -/
def gridMax (input : Series) (interval : Nat) : Nat :=
  ((input.getLast?.getD (0, 0)).fst + interval - 1) / interval * interval

/-- Embeds `fn interpolate(input: &[(u64, f64)], interval: u64)`
(`plot.rs` lines 303–333): empty input gives an empty output, otherwise
one sample per grid point from `floor(first/interval)*interval` to
`ceil(last/interval)*interval`.  Meaningful for `interval > 0`; for
`interval = 0` the source panics (division by zero), and the only caller
in this file, `sum_bytes`, models that panic before using this value. -/
def interpolate (input : Series) (interval : Nat) : Series :=
  match input with
  | [] => []
  | _ =>
    (gridPoints (gridMin input interval) (gridMax input interval) interval).map
      (fun p => (p, interpValue input p))

/-- Embeds the `match stream.binary_search_by_key(&point, |e| e.0)` arms in
`sum_bytes` (`plot.rs` lines 289–294).  On the strictly time-sorted slices
`sum_bytes` feeds it (outputs of `interpolate`), a binary-search hit sits
exactly at index `countP (time < point)`, the insertion index otherwise.
`none` embeds the `panic!("unexpected index")` arm. -/
def lookup (stream : Series) (point : Nat) : Option ℚ :=
  let j := stream.countP (fun e => e.fst < point)
  if j < stream.length ∧ (stream.getD j (0, 0)).fst = point then
    some (stream.getD j (0, 0)).snd
  else if j = 0 then some 0
  else if j = stream.length then (stream.getLast?).map Prod.snd
  else none

/-- The shape of every series `sum_bytes` queries: a grid decorated with
values (what `interpolate` produces on non-empty input). -/
def gridSeries (lo hi I : Nat) (f : Nat → ℚ) : Series :=
  (gridPoints lo hi I).map (fun q => (q, f q))

/-- The `throughput` vector of `sum_bytes` (`plot.rs` lines 266–269):
every input stream resampled at the interval. -/
def aggStreams (input : List Series) (I : Nat) : List Series :=
  input.map (fun s => interpolate s I)

/-- The `min` bound of `sum_bytes` (`plot.rs` lines 271–275): least first
timestamp of the resampled streams, an absent first timestamp counting
as 0 (`unwrap_or(0)`), and 0 for an empty stream list. -/
def aggMin (input : List Series) (I : Nat) : Nat :=
  listMin0 ((aggStreams input I).map (fun s => (s.head?.map Prod.fst).getD 0))

/-- The `max` bound of `sum_bytes` (`plot.rs` lines 277–281): greatest
last timestamp of the resampled streams, an absent last timestamp
counting as 0 (`unwrap_or(0)`), and 0 for an empty stream list. -/
def aggMax (input : List Series) (I : Nat) : Nat :=
  listMax0 ((aggStreams input I).map (fun s => (s.getLast?.map Prod.fst).getD 0))

/-- The per-point sum of `sum_bytes` in its non-panicking runs: each
resampled stream's contribution at the point, summed left to right from
`0.0` as Rust's `Iterator::sum` does. -/
def aggSum (input : List Series) (I p : Nat) : ℚ :=
  ((aggStreams input I).map (fun s => (lookup s p).getD 0)).foldl (· + ·) 0

/-- Embeds `fn sum_bytes(input: &[&[(u64, f64)]], interval: Duration)`
(`plot.rs` lines 263–301), with `interval` already converted to its `u64`
microsecond count.  `none` embeds a panic: `step_by(0)` (and the division
by zero inside `interpolate`) when `interval = 0`, or the
`panic!("unexpected index")` arm of the binary-search match. -/
def sum_bytes (input : List Series) (interval : Nat) : Option Series :=
  if interval = 0 then none
  else
    (gridPoints (aggMin input interval) (aggMax input interval) interval).mapM (fun p =>
      ((aggStreams input interval).mapM (fun s => lookup s p)).map
        (fun vs => (p, vs.foldl (· + ·) 0)))

/-- The rate `to_rates` computes for a sample `cur` with predecessor
`prev` (`plot.rs` lines 241–244): bytes difference, times 8, divided by
10^6, divided by the elapsed seconds `(cur.time - prev.time) / 10^6`. -/
def rateOf (prev cur : Sample) : ℚ :=
  let bytes := cur.snd - prev.snd
  let mbits := bytes * 8 / (1000 * 1000)
  mbits / (((cur.fst - prev.fst : Nat) : ℚ) / 1000000)

/-- The tail of `to_rates`' first pass: each sample paired with the rate
against its predecessor. -/
def ratesTail : Sample → Series → Series
  | _, [] => []
  | prev, cur :: rest => (cur.fst, rateOf prev cur) :: ratesTail cur rest

/-- The first pass of `to_rates` (`plot.rs` lines 238–250): the first
sample gets rate 0, each later sample the finite difference against its
predecessor. -/
def ratesBase : Series → Series
  | [] => []
  | first :: rest => (first.fst, 0) :: ratesTail first rest

/-- Embeds `pub fn to_rates(stream: &[(u64, f64)])` (`plot.rs` lines
237–261): the finite-difference pass, then, when non-empty, a synthetic
`(first - 1, 0)` point in front (skipped when `first = 0`, where
`checked_sub` yields `None`) and a synthetic `(last + 1, 0)` point at the
end. -/
def to_rates (stream : Series) : Series :=
  match ratesBase stream with
  | [] => []
  | first :: rest =>
    let withEnd := (first :: rest) ++ [(((first :: rest).getLast?.getD (0, 0)).fst + 1, 0)]
    if first.fst = 0 then withEnd else (first.fst - 1, 0) :: withEnd

/-- The value classes of `f64` relevant to `float_max`: NaN, the two
infinities, and finite numbers (embedded exactly as `ℚ`). -/
inductive F where
  | nan : F
  | inf : F
  | ninf : F
  | num : ℚ → F
deriving DecidableEq, Repr

/-- Whether an `F` value is NaN, as `f64::is_nan`. -/
def F.isNan : F → Bool
  | .nan => true
  | _ => false

/-- Whether an `F` value is finite, as `f64::is_finite`. -/
def F.isFinite : F → Bool
  | .num _ => true
  | _ => false

/-- Embeds `f64::max` (IEEE maxNum): if one operand is NaN the other is
returned; otherwise the larger under `-∞ < finite < +∞`. -/
def fmax : F → F → F
  | .nan, b => b
  | a, .nan => a
  | .inf, _ => .inf
  | _, .inf => .inf
  | .ninf, b => b
  | a, .ninf => a
  | .num a, .num b => .num (max a b)

/-- Embeds `pub fn float_max(iter: impl Iterator<Item = f64>)`
(`plot.rs` lines 223–231): fold `f64::max` from a NaN accumulator, then
replace a NaN result by the fallback `100.0`. -/
def float_max (l : List F) : F :=
  let m := l.foldl fmax F.nan
  if m.isNan then F.num 100 else m

/-- A raw stream: `Vec<(u64, u64)>` timestamped cumulative byte counts. -/
abbrev RawSeries := List (Nat × Nat)

/-- Embeds `fn to_float(stream: &[(u64, u64)])` (`plot.rs` lines
233–235): widen the byte counts to float values. -/
def to_float (stream : RawSeries) : Series :=
  stream.map (fun e => (e.fst, (e.snd : ℚ)))

/-- One raw stream group of a run: direction flag, simultaneous-both
flag, and the raw streams (from `RawResult::stream_groups`). -/
structure RawStreamGroup where
  download : Bool
  both : Bool
  streams : List RawSeries

/-- Modelled from the spec: the parts of `RawResult` that
`to_test_result` reads which live outside `src/` (`file_format.rs`).
`bothFlag` models `RawResult::both()`, the run's "has a simultaneous-both
phase" report; per the spec it is a construction invariant of a run, not
derived from `stream_groups` at this point.  `bandwidth_interval` is the
run's configured sampling interval in microseconds
(`config.bandwidth_interval` converted by `as_micros() as u64`). -/
structure RawResult where
  bothFlag : Bool
  stream_groups : List RawStreamGroup
  bandwidth_interval : Nat

/-- Embeds the `find` closure of `to_test_result` (`plot.rs` lines
60–75) composed with `process_bytes`: the first stream group with the
given flags, aggregated over its raw streams.  Outer `none` embeds a
panic inside `sum_bytes`; inner `none` means no such category exists. -/
def findCategory (r : RawResult) (d b : Bool) : Option (Option Series) :=
  match r.stream_groups.find? (fun g => g.download == d && g.both == b) with
  | none => some none
  | some g => (sum_bytes (g.streams.map to_float) r.bandwidth_interval).map some

/-- Embeds the `both_bytes` computation of `RawResult::to_test_result`
(`plot.rs` lines 102–110): when the run reports a both phase, sum the
both-download and both-upload category series, unwrapping both options
(a missing category panics, embedded as the outer `none`); otherwise the
field is `None`. -/
def bothBytes (r : RawResult) : Option (Option Series) := do
  let d ← findCategory r true true
  let u ← findCategory r false true
  if r.bothFlag then
    match d, u with
    | some ds, some us => (sum_bytes [ds, us] r.bandwidth_interval).map some
    | _, _ => none
  else
    pure none

/-- Whether a run has a stream group for the given category flags, i.e.
whether the `find` closure of `to_test_result` succeeds for them. -/
abbrev hasCategory (r : RawResult) (d b : Bool) : Prop :=
  (r.stream_groups.find? (fun g => g.download == d && g.both == b)).isSome = true

/-- A concrete two-category run exercising the both-phase assembly. -/
def exampleBothRun : RawResult :=
  ⟨true, [⟨true, true, [[(0, 0), (2, 4)]]⟩, ⟨false, true, [[(0, 0), (2, 2)]]⟩], 1⟩

/-! ### Arithmetic facts about the grid bounds -/

/-- `floor(a/I)*I ≤ a`. -/
theorem floor_mul_le (a I : Nat) : a / I * I ≤ a :=
  Nat.div_mul_le_self a I

/-- `a ≤ ceil(a/I)*I` in the source's formulation `(a + I - 1) / I * I`. -/
theorem le_ceil_mul (a I : Nat) (hI : 0 < I) : a ≤ (a + I - 1) / I * I := by
  have h2 := Nat.div_add_mod (a + I - 1) I
  have h3 : (a + I - 1) % I < I := Nat.mod_lt _ hI
  have h4 : I * ((a + I - 1) / I) = (a + I - 1) / I * I := Nat.mul_comm _ _
  omega

/-! ### Properties of `gridPoints` -/

theorem gridPoints_eq {lo hi I : Nat} (h : lo ≤ hi) :
    gridPoints lo hi I = (List.range ((hi - lo) / I + 1)).map (fun k => lo + k * I) := by
  simp [gridPoints, h]

theorem gridPoints_nil {lo hi I : Nat} (h : ¬ lo ≤ hi) : gridPoints lo hi I = [] := by
  simp [gridPoints, h]

theorem gridPoints_length {lo hi I : Nat} (h : lo ≤ hi) :
    (gridPoints lo hi I).length = (hi - lo) / I + 1 := by
  simp [gridPoints_eq h]

theorem gridPoints_head? {lo hi I : Nat} (h : lo ≤ hi) :
    (gridPoints lo hi I).head? = some lo := by
  rw [gridPoints_eq h, List.head?_map, List.head?_range]
  simp

theorem gridPoints_getLast? {lo hi I : Nat} (h : lo ≤ hi) :
    (gridPoints lo hi I).getLast? = some (lo + (hi - lo) / I * I) := by
  rw [gridPoints_eq h, List.getLast?_map, List.range_succ]
  simp

theorem gridPoints_getElem? {lo hi I k : Nat} (h : lo ≤ hi) (hk : k ≤ (hi - lo) / I) :
    (gridPoints lo hi I)[k]? = some (lo + k * I) := by
  rw [gridPoints_eq h, List.getElem?_map, List.getElem?_range (by omega)]
  rfl

theorem gridPoints_mem {lo hi I p : Nat} (hp : p ∈ gridPoints lo hi I) :
    ∃ k, k ≤ (hi - lo) / I ∧ p = lo + k * I := by
  by_cases h : lo ≤ hi
  · rw [gridPoints_eq h] at hp
    simp only [List.mem_map, List.mem_range] at hp
    obtain ⟨k, hk, rfl⟩ := hp
    exact ⟨k, by omega, rfl⟩
  · rw [gridPoints_nil h] at hp
    cases hp

theorem dvd_of_mem_gridPoints {lo hi I p : Nat} (hlo : I ∣ lo)
    (hp : p ∈ gridPoints lo hi I) : I ∣ p := by
  obtain ⟨k, -, rfl⟩ := gridPoints_mem hp
  exact Nat.dvd_add hlo (Dvd.intro_left k rfl)

/-! ### Counting grid points below a query point -/

theorem countP_range_lt (n m : Nat) :
    (List.range n).countP (fun k => k < m) = Nat.min n m := by
  induction n with
  | zero => simp
  | succ n ih =>
    rw [List.range_succ, List.countP_append, ih]
    by_cases h : n < m
    · have h1 : Nat.min n m = n := Nat.min_eq_left (by omega)
      have h2 : Nat.min (n + 1) m = n + 1 := Nat.min_eq_left (by omega)
      simp [List.countP_cons, h, h1, h2]
    · have h1 : Nat.min n m = m := Nat.min_eq_right (by omega)
      have h2 : Nat.min (n + 1) m = m := Nat.min_eq_right (by omega)
      simp [List.countP_cons, h, h1, h2]

theorem gridSeries_countP (lo hi I : Nat) (f : Nat → ℚ) (p : Nat) :
    (gridSeries lo hi I f).countP (fun e => e.fst < p)
      = (gridPoints lo hi I).countP (fun q => q < p) := by
  rw [gridSeries, List.countP_map]
  rfl

theorem gridSeries_length (lo hi I : Nat) (f : Nat → ℚ) :
    (gridSeries lo hi I f).length = (gridPoints lo hi I).length := by
  simp [gridSeries]

theorem gridPoints_countP_of_le (lo hi I p : Nat) (hp : p ≤ lo) :
    (gridPoints lo hi I).countP (fun q => q < p) = 0 := by
  rw [List.countP_eq_zero]
  intro q hq
  obtain ⟨k, -, rfl⟩ := gridPoints_mem hq
  simp only [decide_eq_true_eq]
  omega

theorem gridPoints_countP_of_gt (lo hi I p : Nat) (h : lo ≤ hi)
    (hp : lo + (hi - lo) / I * I < p) :
    (gridPoints lo hi I).countP (fun q => q < p) = (gridPoints lo hi I).length := by
  rw [List.countP_eq_length]
  intro q hq
  obtain ⟨k, hk, rfl⟩ := gridPoints_mem hq
  simp only [decide_eq_true_eq]
  have : k * I ≤ (hi - lo) / I * I := Nat.mul_le_mul_right _ hk
  omega

theorem gridPoints_countP_of_grid (lo hi I k : Nat) (h : lo ≤ hi) (hI : 0 < I)
    (hk : k ≤ (hi - lo) / I) :
    (gridPoints lo hi I).countP (fun q => q < lo + k * I) = k := by
  rw [gridPoints_eq h, List.countP_map]
  have hcongr : ((fun q => decide (q < lo + k * I)) ∘ fun j => lo + j * I)
      = fun j => decide (j < k) := by
    funext j
    simp only [Function.comp_apply, decide_eq_decide]
    constructor
    · intro hj
      by_contra hjk
      have : k * I ≤ j * I := Nat.mul_le_mul_right _ (by omega)
      omega
    · intro hj
      have : j * I < k * I := (Nat.mul_lt_mul_right hI).mpr hj
      omega
  have hmin : Nat.min ((hi - lo) / I + 1) k = k := Nat.min_eq_right (by omega)
  rw [hcongr, countP_range_lt, hmin]

/-! ### `lookup` on grid-aligned series -/

theorem lookup_nil (p : Nat) : lookup [] p = some 0 := by
  simp [lookup]

theorem gridSeries_getD (lo hi I k : Nat) (h : lo ≤ hi) (hk : k ≤ (hi - lo) / I)
    (f : Nat → ℚ) : (gridSeries lo hi I f).getD k (0, 0) = (lo + k * I, f (lo + k * I)) := by
  have h0 : (gridSeries lo hi I f)[k]? = some (lo + k * I, f (lo + k * I)) := by
    rw [gridSeries, List.getElem?_map, gridPoints_getElem? h hk]
    rfl
  simp [List.getD_eq_getElem?_getD, h0]

theorem lookup_gridSeries_of_lt (lo hi I p : Nat) (h : lo ≤ hi) (hp : p < lo)
    (f : Nat → ℚ) : lookup (gridSeries lo hi I f) p = some 0 := by
  have hcount : (gridSeries lo hi I f).countP (fun e => e.fst < p) = 0 := by
    rw [gridSeries_countP]
    exact gridPoints_countP_of_le lo hi I p (Nat.le_of_lt hp)
  have hget := gridSeries_getD lo hi I 0 h (Nat.zero_le _) f
  have hne : lo ≠ p := by omega
  simp only [lookup, hcount, hget]
  simp [hne]

theorem lookup_gridSeries_of_gt (lo hi I p : Nat) (h : lo ≤ hi) (hI : 0 < I)
    (hp : lo + (hi - lo) / I * I < p) (f : Nat → ℚ) :
    lookup (gridSeries lo hi I f) p = some (f (lo + (hi - lo) / I * I)) := by
  have hcount : (gridSeries lo hi I f).countP (fun e => e.fst < p)
      = (gridSeries lo hi I f).length := by
    rw [gridSeries_countP, gridSeries_length]
    exact gridPoints_countP_of_gt lo hi I p h hp
  have hlen : (gridSeries lo hi I f).length = (hi - lo) / I + 1 := by
    rw [gridSeries_length, gridPoints_length h]
  have hlast : (gridSeries lo hi I f).getLast?
      = some (lo + (hi - lo) / I * I, f (lo + (hi - lo) / I * I)) := by
    rw [gridSeries, List.getLast?_map, gridPoints_getLast? h]
    rfl
  simp only [lookup, hcount]
  simp [hlen, hlast]

theorem lookup_gridSeries_of_grid (lo hi I k : Nat) (h : lo ≤ hi) (hI : 0 < I)
    (hk : k ≤ (hi - lo) / I) (f : Nat → ℚ) :
    lookup (gridSeries lo hi I f) (lo + k * I) = some (f (lo + k * I)) := by
  have hcount : (gridSeries lo hi I f).countP (fun e => e.fst < lo + k * I) = k := by
    rw [gridSeries_countP]
    exact gridPoints_countP_of_grid lo hi I k h hI hk
  have hlen : (gridSeries lo hi I f).length = (hi - lo) / I + 1 := by
    rw [gridSeries_length, gridPoints_length h]
  have hklt : k < (hi - lo) / I + 1 := by omega
  have hget := gridSeries_getD lo hi I k h hk f
  simp only [lookup, hcount, hget]
  simp [hlen, hklt]

theorem lookup_gridSeries_isSome (lo hi I p : Nat) (hI : 0 < I) (hlo : I ∣ lo)
    (hp : I ∣ p) (f : Nat → ℚ) : (lookup (gridSeries lo hi I f) p).isSome := by
  by_cases h : lo ≤ hi
  · rcases Nat.lt_or_ge p lo with hpl | hpl
    · rw [lookup_gridSeries_of_lt lo hi I p h hpl]
      rfl
    · rcases Nat.lt_or_ge (lo + (hi - lo) / I * I) p with hpg | hpg
      · rw [lookup_gridSeries_of_gt lo hi I p h hI hpg]
        rfl
      · obtain ⟨k, hk⟩ := (Nat.dvd_sub' hp hlo : I ∣ p - lo)
        have hIk : I * k = k * I := Nat.mul_comm I k
        have hpe : p = lo + k * I := by omega
        have hkK : k ≤ (hi - lo) / I := by
          by_contra hc
          have : (hi - lo) / I * I < k * I :=
            (Nat.mul_lt_mul_right hI).mpr (by omega)
          omega
        rw [hpe, lookup_gridSeries_of_grid lo hi I k h hI hkK]
        rfl
  · rw [gridSeries, gridPoints_nil h]
    simp [lookup_nil]

/-! ### `interpolate` as a grid series -/

theorem interpolate_nil (I : Nat) : interpolate [] I = [] := rfl

theorem interpolate_eq (input : Series) (I : Nat) (h : input ≠ []) :
    interpolate input I
      = gridSeries (gridMin input I) (gridMax input I) I (interpValue input) := by
  cases input with
  | nil => exact absurd rfl h
  | cons a l => rfl

theorem timeSorted_head_le_getLast (s : Series) (hs : TimeSorted s) (h : s ≠ []) :
    (s.head?.getD (0, 0)).fst ≤ (s.getLast?.getD (0, 0)).fst := by
  cases s with
  | nil => exact absurd rfl h
  | cons a l =>
    cases l with
    | nil => simp
    | cons b m =>
      rw [TimeSorted, List.pairwise_cons] at hs
      have hmem : (b :: m).getLast (by simp) ∈ b :: m := List.getLast_mem _
      have hle := hs.1 _ hmem
      have hlast : (a :: b :: m).getLast? = some ((b :: m).getLast (by simp)) := by
        rw [List.getLast?_cons_cons]
        exact List.getLast?_eq_getLast _ _
      simp only [hlast, List.head?_cons, Option.getD_some]
      exact hle

theorem gridMin_le_gridMax (s : Series) (I : Nat) (hI : 0 < I) (hs : TimeSorted s)
    (h : s ≠ []) : gridMin s I ≤ gridMax s I :=
  le_trans (floor_mul_le _ _)
    (le_trans (timeSorted_head_le_getLast s hs h) (le_ceil_mul _ _ hI))

theorem dvd_gridMin (s : Series) (I : Nat) : I ∣ gridMin s I :=
  Dvd.intro_left _ rfl

theorem dvd_gridMax (s : Series) (I : Nat) : I ∣ gridMax s I :=
  Dvd.intro_left _ rfl

theorem grid_last_eq (lo hi I : Nat) (hlo : I ∣ lo) (hhi : I ∣ hi)
    (h : lo ≤ hi) : lo + (hi - lo) / I * I = hi := by
  have hd : I ∣ hi - lo := Nat.dvd_sub' hhi hlo
  rw [Nat.div_mul_cancel hd]
  omega

theorem interpolate_head_fst_dvd (s : Series) (I : Nat) :
    I ∣ (((interpolate s I).head?.map Prod.fst).getD 0) := by
  cases s with
  | nil => simp [interpolate_nil]
  | cons a l =>
    rw [interpolate_eq (a :: l) I (by simp)]
    by_cases h : gridMin (a :: l) I ≤ gridMax (a :: l) I
    · rw [gridSeries, List.head?_map, gridPoints_head? h]
      simpa using dvd_gridMin (a :: l) I
    · rw [gridSeries, gridPoints_nil h]
      simp

theorem interpolate_head_fst (s : Series) (I : Nat) (hI : 0 < I) (hs : TimeSorted s)
    (h : s ≠ []) : ((interpolate s I).head?.map Prod.fst).getD 0 = gridMin s I := by
  rw [interpolate_eq s I h, gridSeries, List.head?_map,
    gridPoints_head? (gridMin_le_gridMax s I hI hs h)]
  rfl

theorem interpolate_getLast_fst (s : Series) (I : Nat) (hI : 0 < I) (hs : TimeSorted s)
    (h : s ≠ []) : ((interpolate s I).getLast?.map Prod.fst).getD 0 = gridMax s I := by
  rw [interpolate_eq s I h, gridSeries, List.getLast?_map,
    gridPoints_getLast? (gridMin_le_gridMax s I hI hs h)]
  simpa using grid_last_eq (gridMin s I) (gridMax s I) I (dvd_gridMin s I)
    (dvd_gridMax s I) (gridMin_le_gridMax s I hI hs h)

/-! ### `listMin0`, `listMax0` -/

theorem foldl_min_mem (x : Nat) (l : List Nat) : l.foldl Nat.min x ∈ x :: l := by
  induction l generalizing x with
  | nil => simp
  | cons y t ih =>
    rw [List.foldl_cons]
    rcases List.mem_cons.mp (ih (Nat.min x y)) with hh | hh
    · rw [hh]
      rcases Nat.le_total x y with hxy | hxy
      · have hm : Nat.min x y = x := Nat.min_eq_left hxy
        rw [hm]
        exact List.mem_cons_self _ _
      · have hm : Nat.min x y = y := Nat.min_eq_right hxy
        rw [hm]
        exact List.mem_cons_of_mem _ (List.mem_cons_self _ _)
    · exact List.mem_cons_of_mem _ (List.mem_cons_of_mem _ hh)

theorem listMin0_mem (l : List Nat) (h : l ≠ []) : listMin0 l ∈ l := by
  cases l with
  | nil => exact absurd rfl h
  | cons x t => exact foldl_min_mem x t

theorem dvd_listMin0 (I : Nat) (l : List Nat) (h : ∀ x ∈ l, I ∣ x) : I ∣ listMin0 l := by
  cases l with
  | nil => exact Nat.dvd_zero I
  | cons x t => exact h _ (foldl_min_mem x t)

/-! ### `mapM` over `Option` -/

theorem mapM_eq_some_map {α β : Type} (f : α → Option β) (g : α → β)
    (l : List α) (h : ∀ x ∈ l, f x = some (g x)) : l.mapM f = some (l.map g) := by
  induction l with
  | nil => rfl
  | cons a t ih =>
    rw [List.mapM_cons, h a (List.mem_cons_self a t),
      ih (fun x hx => h x (List.mem_cons_of_mem a hx))]
    rfl

/-! ### `sum_bytes` in its non-panicking runs -/

theorem lookup_interpolate_isSome (s : Series) (I p : Nat) (hI : 0 < I)
    (hp : I ∣ p) : (lookup (interpolate s I) p).isSome := by
  cases s with
  | nil => rw [interpolate_nil, lookup_nil]; rfl
  | cons a l =>
    rw [interpolate_eq (a :: l) I (by simp)]
    exact lookup_gridSeries_isSome _ _ I p hI (dvd_gridMin (a :: l) I) hp _

theorem dvd_aggMin (input : List Series) (I : Nat) : I ∣ aggMin input I := by
  apply dvd_listMin0
  intro x hx
  rw [aggStreams] at hx
  simp only [List.map_map, List.mem_map] at hx
  obtain ⟨s0, -, rfl⟩ := hx
  exact interpolate_head_fst_dvd s0 I

theorem sum_bytes_eq (input : List Series) (I : Nat) (hI : 0 < I) :
    sum_bytes input I = some ((gridPoints (aggMin input I) (aggMax input I) I).map
      (fun p => (p, aggSum input I p))) := by
  have hIne : ¬ I = 0 := by omega
  rw [sum_bytes, if_neg hIne]
  apply mapM_eq_some_map _ (fun p => (p, aggSum input I p))
  intro p hp
  have hdvd : I ∣ p := dvd_of_mem_gridPoints (dvd_aggMin input I) hp
  have hlk : (aggStreams input I).mapM (fun s => lookup s p)
      = some ((aggStreams input I).map (fun s => (lookup s p).getD 0)) := by
    apply mapM_eq_some_map
    intro s hs
    rw [aggStreams] at hs
    obtain ⟨s0, -, rfl⟩ := List.mem_map.mp hs
    obtain ⟨v, hv⟩ := Option.isSome_iff_exists.mp (lookup_interpolate_isSome s0 I p hI hdvd)
    rw [hv]
    rfl
  rw [hlk]
  rfl

theorem sum_bytes_isSome (input : List Series) (I : Nat) (hI : 0 < I) :
    (sum_bytes input I).isSome := by
  rw [sum_bytes_eq input I hI]
  rfl

/-! ### Claim theorems -/

/-- C1: in the Aggregator (`sum_bytes`), for every list of input series and
every interval of at least one microsecond, the `panic!("unexpected index")`
branch is unreachable: every grid point queried against an internally
resampled series hits one of the three non-panicking arms (exact timestamp
match, strictly before the first timestamp, or strictly after the last), so
the whole aggregation returns a value. -/
theorem sum_bytes_no_unexpected_index_panic (input : List Series) (I : Nat)
    (hI : 0 < I) :
    (∀ s ∈ input, ∀ p : Nat, I ∣ p → lookup (interpolate s I) p ≠ none) ∧
    (sum_bytes input I).isSome := by
  constructor
  · intro s _ p hp hcon
    have hsome := lookup_interpolate_isSome s I p hI hp
    rw [hcon] at hsome
    simp at hsome
  · exact sum_bytes_isSome input I hI

/-- Witness for C1 at a concrete two-series input and interval 2 µs. -/
theorem sum_bytes_no_unexpected_index_panic_witness :
    (0 : Nat) < 2 ∧
    ((∀ s ∈ ([[(1, 3), (5, 7)], []] : List Series), ∀ p : Nat, 2 ∣ p →
        lookup (interpolate s 2) p ≠ none) ∧
      (sum_bytes ([[(1, 3), (5, 7)], []] : List Series) 2).isSome) :=
  ⟨by decide, sum_bytes_no_unexpected_index_panic ([[(1, 3), (5, 7)], []] : List Series) 2
    (by decide)⟩

/-- C2: the Resampler (`interpolate`) returns an empty series for empty
input; for non-empty time-sorted input and positive interval its output has
exactly one sample at each multiple of the interval from
`floor(first/interval)*interval` to `ceil(last/interval)*interval`, in
increasing timestamp order, hence length `(max - min)/interval + 1`. -/
theorem interpolate_grid_spec (s : Series) (I : Nat) (hI : 0 < I)
    (hs : TimeSorted s) :
    (interpolate [] I = []) ∧
    (s ≠ [] →
      (interpolate s I).map Prod.fst
        = (List.range ((gridMax s I - gridMin s I) / I + 1)).map
            (fun k => gridMin s I + k * I) ∧
      (interpolate s I).length = (gridMax s I - gridMin s I) / I + 1) := by
  refine ⟨rfl, fun h => ⟨?_, ?_⟩⟩
  · rw [interpolate_eq s I h, gridSeries, List.map_map]
    have hcomp : (Prod.fst ∘ fun q => ((q, interpValue s q) : Sample))
        = fun q => q := rfl
    rw [hcomp, gridPoints_eq (gridMin_le_gridMax s I hI hs h)]
    simp
  · rw [interpolate_eq s I h, gridSeries, List.length_map,
      gridPoints_length (gridMin_le_gridMax s I hI hs h)]

/-- Witness for C2 at a concrete sorted series and interval 2 µs. -/
theorem interpolate_grid_spec_witness :
    (0 : Nat) < 2 ∧ TimeSorted [(1, 3), (5, 7)] ∧ ([(1, 3), (5, 7)] : Series) ≠ [] ∧
    ((interpolate [(1, 3), (5, 7)] 2).map Prod.fst
        = (List.range ((gridMax [(1, 3), (5, 7)] 2 - gridMin [(1, 3), (5, 7)] 2) / 2 + 1)).map
            (fun k => gridMin [(1, 3), (5, 7)] 2 + k * 2) ∧
      (interpolate [(1, 3), (5, 7)] 2).length
        = (gridMax [(1, 3), (5, 7)] 2 - gridMin [(1, 3), (5, 7)] 2) / 2 + 1) :=
  ⟨by decide, by decide, by decide,
    (interpolate_grid_spec [(1, 3), (5, 7)] 2 (by decide) (by decide)).2 (by decide)⟩

/-- C5: Resampler no-overshoot.  Every output sample of `interpolate` on a
non-empty time-sorted series either carries an exact input value, or its
value lies between the minimum and maximum of the values of the two input
samples bracketing its timestamp. -/
theorem interpolate_no_overshoot (s : Series) (I : Nat) (hI : 0 < I)
    (hs : TimeSorted s) (hne : s ≠ []) :
    ∀ q ∈ interpolate s I,
      (∃ x ∈ s, x.snd = q.snd) ∨
      ∃ j, ∃ (h1 : j < s.length) (h2 : j + 1 < s.length),
        (s.get ⟨j, h1⟩).fst ≤ q.fst ∧ q.fst ≤ (s.get ⟨j + 1, h2⟩).fst ∧
        min (s.get ⟨j, h1⟩).snd (s.get ⟨j + 1, h2⟩).snd ≤ q.snd ∧
        q.snd ≤ max (s.get ⟨j, h1⟩).snd (s.get ⟨j + 1, h2⟩).snd := by
  intro q hq
  rw [interpolate_eq s I hne, gridSeries] at hq
  obtain ⟨p, hpmem, rfl⟩ := List.mem_map.mp hq
  simp only [interpValue]
  generalize hidef : partitionPoint s p = i
  have hile : i ≤ s.length := by
    rw [← hidef, partitionPoint]
    exact List.findIdx_le_length _
  by_cases hc1 : i = s.length
  · rw [if_pos hc1]
    refine Or.inl ⟨s.getLast hne, List.getLast_mem hne, ?_⟩
    rw [List.getLast?_eq_getLast s hne]
    rfl
  · rw [if_neg hc1]
    have hilt : i < s.length := Nat.lt_of_le_of_ne hile hc1
    have hgetD : s.getD i (0, 0) = s.get ⟨i, hilt⟩ := by
      rw [List.getD_eq_getElem?_getD, List.getElem?_eq_getElem hilt]
      rfl
    by_cases hc2 : (s.getD i (0, 0)).fst = p ∨ i = 0
    · rw [if_pos hc2]
      refine Or.inl ⟨s.getD i (0, 0), ?_, rfl⟩
      rw [hgetD]
      exact List.get_mem s i hilt
    · rw [if_neg hc2]
      have hi0 : i ≠ 0 := fun h0 => hc2 (Or.inr h0)
      obtain ⟨j, rfl⟩ : ∃ j, i = j + 1 := ⟨i - 1, by omega⟩
      have hj1 : j < s.length := by omega
      have hgetDj : s.getD (j + 1 - 1) (0, 0) = s.get ⟨j, hj1⟩ := by
        have hjj : j + 1 - 1 = j := by omega
        rw [hjj, List.getD_eq_getElem?_getD, List.getElem?_eq_getElem hj1]
        rfl
      have hidef2 : s.findIdx (fun e => p ≤ e.fst) = j + 1 := by
        rw [partitionPoint] at hidef
        exact hidef
      have key := (List.findIdx_eq hilt).mp hidef2
      have hfound : p ≤ (s.get ⟨j + 1, hilt⟩).fst := by
        have hk := key.1
        simp only [decide_eq_true_eq] at hk
        simpa [List.get_eq_getElem] using hk
      have hprev : (s.get ⟨j, hj1⟩).fst < p := by
        have hk := key.2 j (by omega)
        simp only [decide_eq_true_eq] at hk
        exact Nat.lt_of_not_le (by simpa [List.get_eq_getElem] using hk)
      by_cases hc3 : (s.getD (j + 1) (0, 0)).fst - (s.getD (j + 1 - 1) (0, 0)).fst = 0
      · rw [if_pos hc3]
        refine Or.inl ⟨s.getD (j + 1) (0, 0), ?_, rfl⟩
        rw [hgetD]
        exact List.get_mem s (j + 1) hilt
      · rw [if_neg hc3]
        rw [hgetD, hgetDj] at hc3 ⊢
        refine Or.inr ⟨j, hj1, hilt, le_of_lt hprev, hfound, ?_, ?_⟩
        all_goals
          set t1 := (s.get ⟨j, hj1⟩).fst with ht1
          set t2 := (s.get ⟨j + 1, hilt⟩).fst with ht2
          set a := (s.get ⟨j, hj1⟩).snd with ha
          set b := (s.get ⟨j + 1, hilt⟩).snd with hb
          set r := (((p - t1 : Nat) : ℚ) / ((t2 - t1 : Nat) : ℚ)) with hr
          have hdpos : (0 : ℚ) < ((t2 - t1 : Nat) : ℚ) := by
            have hpos : 0 < t2 - t1 := Nat.pos_of_ne_zero hc3
            exact_mod_cast hpos
          have h0r : 0 ≤ r := by
            rw [hr]
            exact div_nonneg (by positivity) (le_of_lt hdpos)
          have hr1 : r ≤ 1 := by
            rw [hr, div_le_one hdpos]
            have hnum : p - t1 ≤ t2 - t1 := by omega
            exact_mod_cast hnum
          rcases le_total a b with hab | hab
          · have hba : (0 : ℚ) ≤ b - a := by linarith
            have k1 : (b - a) * 0 ≤ (b - a) * r := mul_le_mul_of_nonneg_left h0r hba
            have k2 : (b - a) * r ≤ (b - a) * 1 := mul_le_mul_of_nonneg_left hr1 hba
            first
            | exact le_trans (min_le_left a b) (by linarith)
            | exact le_trans (by linarith : a + (b - a) * r ≤ b) (le_max_right a b)
          · have hba : b - a ≤ (0 : ℚ) := by linarith
            have k1 : (b - a) * 1 ≤ (b - a) * r := mul_le_mul_of_nonpos_left hr1 hba
            have k2 : (b - a) * r ≤ (b - a) * 0 := mul_le_mul_of_nonpos_left h0r hba
            first
            | exact le_trans (min_le_right a b) (by linarith)
            | exact le_trans (by linarith : a + (b - a) * r ≤ a) (le_max_left a b)

/-- Witness for C5 at a concrete sorted series and interval 1 µs. -/
theorem interpolate_no_overshoot_witness :
    (0 : Nat) < 1 ∧ TimeSorted [(0, 0), (2, 4)] ∧ ([(0, 0), (2, 4)] : Series) ≠ [] ∧
    ∀ q ∈ interpolate [(0, 0), (2, 4)] 1,
      (∃ x ∈ ([(0, 0), (2, 4)] : Series), x.snd = q.snd) ∨
      ∃ j, ∃ (h1 : j < ([(0, 0), (2, 4)] : Series).length)
          (h2 : j + 1 < ([(0, 0), (2, 4)] : Series).length),
        (([(0, 0), (2, 4)] : Series).get ⟨j, h1⟩).fst ≤ q.fst ∧
        q.fst ≤ (([(0, 0), (2, 4)] : Series).get ⟨j + 1, h2⟩).fst ∧
        min (([(0, 0), (2, 4)] : Series).get ⟨j, h1⟩).snd
            (([(0, 0), (2, 4)] : Series).get ⟨j + 1, h2⟩).snd ≤ q.snd ∧
        q.snd ≤ max (([(0, 0), (2, 4)] : Series).get ⟨j, h1⟩).snd
            (([(0, 0), (2, 4)] : Series).get ⟨j + 1, h2⟩).snd :=
  ⟨by decide, by decide, by decide,
    interpolate_no_overshoot [(0, 0), (2, 4)] 1 (by decide) (by decide) (by decide)⟩

/-- C6 counterexample: for the empty series (a legal series), the
Aggregator of the singleton list returns the one-point series `[(0, 0)]`
while the Resampler returns the empty series, so the claimed equality
fails at `s = []`, `interval = 1`. -/
theorem sum_bytes_singleton_empty_cex :
    sum_bytes [([] : Series)] 1 = some [(0, 0)] ∧
    interpolate ([] : Series) 1 = [] ∧
    sum_bytes [([] : Series)] 1 ≠ some (interpolate ([] : Series) 1) := by
  have h1 : sum_bytes [([] : Series)] 1 = some [(0, 0)] := by
    norm_num [sum_bytes, aggMin, aggMax, aggStreams, listMin0, listMax0, gridPoints,
      lookup, interpolate, List.mapM.loop, List.findIdx_cons, List.findIdx_nil,
      List.countP_cons, List.countP_nil, List.range_succ]
  refine ⟨h1, rfl, ?_⟩
  rw [h1, interpolate_nil]
  intro hcon
  simp at hcon

/-- C6 (amended): for every non-empty time-sorted series `s` and interval
> 0, aggregating the singleton list `[s]` returns exactly the resampling
of `s`. -/
theorem sum_bytes_singleton_eq_interpolate (s : Series) (I : Nat) (hI : 0 < I)
    (hs : TimeSorted s) (hne : s ≠ []) :
    sum_bytes [s] I = some (interpolate s I) := by
  rw [sum_bytes_eq [s] I hI]
  have hmn : aggMin [s] I = gridMin s I := by
    rw [aggMin, aggStreams]
    simp only [List.map_cons, List.map_nil, listMin0, List.foldl_nil]
    exact interpolate_head_fst s I hI hs hne
  have hmx : aggMax [s] I = gridMax s I := by
    rw [aggMax, aggStreams]
    simp only [List.map_cons, List.map_nil, listMax0, List.foldl_nil]
    exact interpolate_getLast_fst s I hI hs hne
  rw [hmn, hmx]
  congr 1
  rw [interpolate_eq s I hne, gridSeries]
  apply List.map_congr_left
  intro p hp
  obtain ⟨k, hk, rfl⟩ := gridPoints_mem hp
  have hlk : lookup (interpolate s I) (gridMin s I + k * I)
      = some (interpValue s (gridMin s I + k * I)) := by
    rw [interpolate_eq s I hne]
    exact lookup_gridSeries_of_grid _ _ I k (gridMin_le_gridMax s I hI hs hne) hI hk _
  rw [aggSum, aggStreams]
  simp only [List.map_cons, List.map_nil, List.foldl_cons, List.foldl_nil, hlk,
    Option.getD_some]
  simp

/-- Witness for the amended C6 at a concrete sorted series and interval 2. -/
theorem sum_bytes_singleton_eq_interpolate_witness :
    (0 : Nat) < 2 ∧ TimeSorted [(1, 3), (5, 7)] ∧ ([(1, 3), (5, 7)] : Series) ≠ [] ∧
    sum_bytes [([(1, 3), (5, 7)] : Series)] 2 = some (interpolate [(1, 3), (5, 7)] 2) :=
  ⟨by decide, by decide, by decide,
    sum_bytes_singleton_eq_interpolate [(1, 3), (5, 7)] 2 (by decide) (by decide) (by decide)⟩

/-- C4 counterexample: on the empty series list with interval 1 µs the
Aggregator returns the one-point series `[(0, 0)]`, not an empty series. -/
theorem sum_bytes_empty_list_cex :
    sum_bytes ([] : List Series) 1 = some [(0, 0)] ∧
    sum_bytes ([] : List Series) 1 ≠ some ([] : Series) := by
  have h1 : sum_bytes ([] : List Series) 1 = some [(0, 0)] := by
    norm_num [sum_bytes, aggMin, aggMax, aggStreams, listMin0, listMax0, gridPoints,
      List.mapM.loop, List.range_succ]
  refine ⟨h1, ?_⟩
  rw [h1]
  intro hcon
  simp at hcon

/-- C4 (amended): for every interval of at least one microsecond the
Aggregator applied to an empty list of series returns the single-sample
series `[(0, 0)]` (the `unwrap_or(0)` bounds produce the one grid point 0
with empty sum 0); for a zero interval it panics (`step_by(0)`). -/
theorem sum_bytes_empty_input_eval (I : Nat) (hI : 0 < I) :
    sum_bytes ([] : List Series) I = some [(0, 0)] ∧
    sum_bytes ([] : List Series) 0 = none := by
  refine ⟨?_, rfl⟩
  rw [sum_bytes_eq [] I hI]
  have hmn : aggMin [] I = 0 := rfl
  have hmx : aggMax [] I = 0 := rfl
  rw [hmn, hmx]
  have hg : gridPoints 0 0 I = [0] := by
    rw [gridPoints_eq (le_refl 0)]
    simp [List.range_succ]
  rw [hg]
  rfl

/-- Witness for the amended C4 at interval 3 µs. -/
theorem sum_bytes_empty_input_eval_witness :
    (0 : Nat) < 3 ∧
    (sum_bytes ([] : List Series) 3 = some [(0, 0)] ∧
      sum_bytes ([] : List Series) 0 = none) :=
  ⟨by decide, sum_bytes_empty_input_eval 3 (by decide)⟩

/-- C10 (implicit): in the Aggregator, an empty member series contributes
0 at every grid point and forces the output grid's start down to
timestamp 0 (its missing first grid point is read as 0 by
`unwrap_or(0)`), so aggregating an empty series together with a non-empty
series whose first grid point is positive yields a non-empty output whose
first sample sits at timestamp 0 — not at the non-empty series' first
grid point. -/
theorem sum_bytes_empty_member_grid_start (s : Series) (I : Nat) (hI : 0 < I)
    (hs : TimeSorted s) (hne : s ≠ []) (ht : 0 < gridMin s I) :
    (∀ p : Nat, lookup (interpolate [] I) p = some 0) ∧
    ∃ out, sum_bytes [[], s] I = some out ∧ out ≠ [] ∧
      out.head? = some (0, 0) ∧ out.head?.map Prod.fst ≠ some (gridMin s I) := by
  have hle : gridMin s I ≤ gridMax s I := gridMin_le_gridMax s I hI hs hne
  constructor
  · intro p
    rw [interpolate_nil, lookup_nil]
  · have hmn : aggMin [[], s] I = 0 := by
      rw [aggMin, aggStreams]
      simp only [List.map_cons, List.map_nil, interpolate_nil]
      rw [interpolate_head_fst s I hI hs hne]
      simp only [listMin0, List.foldl_cons, List.foldl_nil, List.head?_nil,
        Option.map_none, Option.getD_none]
      exact Nat.min_eq_left (Nat.zero_le _)
    have hmx : aggMax [[], s] I = gridMax s I := by
      rw [aggMax, aggStreams]
      simp only [List.map_cons, List.map_nil, interpolate_nil]
      rw [interpolate_getLast_fst s I hI hs hne]
      simp only [listMax0, List.foldl_cons, List.foldl_nil, List.getLast?_nil,
        Option.map_none, Option.getD_none]
      exact Nat.max_eq_right (Nat.zero_le _)
    refine ⟨(gridPoints 0 (gridMax s I) I).map (fun p => (p, aggSum [[], s] I p)),
      ?_, ?_, ?_, ?_⟩
    · rw [sum_bytes_eq [[], s] I hI, hmn, hmx]
    · intro hcon
      have hlen := congrArg List.length hcon
      rw [List.length_map, gridPoints_length (Nat.zero_le _)] at hlen
      simp at hlen
    · have hsum : aggSum [[], s] I 0 = 0 := by
        rw [aggSum, aggStreams]
        simp only [List.map_cons, List.map_nil, interpolate_nil, lookup_nil]
        have hr0 : lookup (interpolate s I) 0 = some 0 := by
          rw [interpolate_eq s I hne]
          exact lookup_gridSeries_of_lt _ _ I 0 hle ht _
        rw [hr0]
        simp
      rw [List.head?_map, gridPoints_head? (Nat.zero_le _)]
      simp [hsum]
    · rw [List.head?_map, gridPoints_head? (Nat.zero_le _)]
      intro hcon
      simp at hcon
      omega

/-- Witness for C10 at the concrete series `[(5, 7)]` and interval 2 µs,
whose first grid point is 4 > 0. -/
theorem sum_bytes_empty_member_grid_start_witness :
    (0 : Nat) < 2 ∧ TimeSorted [(5, 7)] ∧ ([(5, 7)] : Series) ≠ [] ∧
    0 < gridMin [(5, 7)] 2 ∧
    ((∀ p : Nat, lookup (interpolate [] 2) p = some 0) ∧
      ∃ out, sum_bytes [[], ([(5, 7)] : Series)] 2 = some out ∧ out ≠ [] ∧
        out.head? = some (0, 0) ∧ out.head?.map Prod.fst ≠ some (gridMin [(5, 7)] 2)) :=
  ⟨by decide, by decide, by decide, by decide,
    sum_bytes_empty_member_grid_start [(5, 7)] 2 (by decide) (by decide) (by decide)
      (by decide)⟩

/-! ### Structure of `to_rates` -/

theorem ratesTail_length (x : Sample) (l : Series) :
    (ratesTail x l).length = l.length := by
  induction l generalizing x with
  | nil => rfl
  | cons y t ih => simp [ratesTail, ih]

theorem ratesTail_map_fst (x : Sample) (l : Series) :
    (ratesTail x l).map Prod.fst = l.map Prod.fst := by
  induction l generalizing x with
  | nil => rfl
  | cons y t ih => simp [ratesTail, ih]

theorem ratesBase_map_fst (s : Series) :
    (ratesBase s).map Prod.fst = s.map Prod.fst := by
  cases s with
  | nil => rfl
  | cons x rest => simp [ratesBase, ratesTail_map_fst]

theorem ratesBase_getLast_fst (s : Series) :
    (ratesBase s).getLast?.map Prod.fst = s.getLast?.map Prod.fst := by
  rw [← List.getLast?_map, ← List.getLast?_map, ratesBase_map_fst]

theorem getD_fst_of_map_fst_eq (o1 o2 : Option Sample)
    (h : o1.map Prod.fst = o2.map Prod.fst) :
    (o1.getD (0, 0)).fst = (o2.getD (0, 0)).fst := by
  cases o1 <;> cases o2 <;> simp_all

/-- C3: the RateConverter returns an empty series for empty input; for
non-empty input the first non-sentinel sample has rate 0 at the input's
first timestamp, a `(first - 1, 0)` sentinel is prepended exactly when the
first timestamp is positive, a `(last + 1, 0)` sentinel is always
appended, and so the output length is `input length + 2` when the first
timestamp is positive and `input length + 1` when it is 0. -/
theorem to_rates_structure (s : Series) :
    (to_rates ([] : Series) = []) ∧
    (s ≠ [] →
      ((to_rates s).length
          = s.length + if 0 < (s.head?.getD (0, 0)).fst then 2 else 1) ∧
      (to_rates s).head? = some (if 0 < (s.head?.getD (0, 0)).fst
          then ((s.head?.getD (0, 0)).fst - 1, 0) else ((s.head?.getD (0, 0)).fst, 0)) ∧
      ((to_rates s).drop (if 0 < (s.head?.getD (0, 0)).fst then 1 else 0)).head?
          = some ((s.head?.getD (0, 0)).fst, 0) ∧
      (to_rates s).getLast? = some ((s.getLast?.getD (0, 0)).fst + 1, 0)) := by
  refine ⟨rfl, fun hne => ?_⟩
  cases s with
  | nil => exact absurd rfl hne
  | cons x rest =>
    have hlastT : ((((x.fst, 0) :: ratesTail x rest).getLast?).getD ((0 : Nat), (0 : ℚ))).fst
        = (((x :: rest : Series).getLast?).getD (0, 0)).fst :=
      getD_fst_of_map_fst_eq _ _ (ratesBase_getLast_fst (x :: rest))
    simp only [to_rates, ratesBase, hlastT]
    by_cases h0 : x.fst = 0
    · rw [if_pos h0]
      have hnotlt : ¬ 0 < (((x :: rest : Series).head?).getD (0, 0)).fst := by
        simp [h0]
      refine ⟨?_, ?_, ?_, ?_⟩
      · simp only [List.head?_cons, Option.getD_some] at hnotlt ⊢
        rw [if_neg hnotlt]
        simp [ratesTail_length]
      · simp only [List.head?_cons, Option.getD_some] at hnotlt ⊢
        rw [if_neg hnotlt]
        simp
      · simp only [List.head?_cons, Option.getD_some] at hnotlt ⊢
        rw [if_neg hnotlt]
        simp
      · rw [List.getLast?_concat]
    · rw [if_neg h0]
      have hlt : 0 < (((x :: rest : Series).head?).getD (0, 0)).fst := by
        simp only [List.head?_cons, Option.getD_some]
        omega
      refine ⟨?_, ?_, ?_, ?_⟩
      · simp only [List.head?_cons, Option.getD_some] at hlt ⊢
        rw [if_pos hlt]
        simp [ratesTail_length]
      · simp only [List.head?_cons, Option.getD_some] at hlt ⊢
        rw [if_pos hlt]
      · simp only [List.head?_cons, Option.getD_some] at hlt ⊢
        rw [if_pos hlt]
        simp
      · rw [← List.cons_append, List.getLast?_concat]

/-- Witness for C3: the two-sample series `[(5, 10), (7, 30)]`, whose
first timestamp is positive, and the structure of its rate series. -/
theorem to_rates_structure_witness :
    ([(5, 10), (7, 30)] : Series) ≠ [] ∧
    (((to_rates [(5, 10), (7, 30)]).length
        = ([(5, 10), (7, 30)] : Series).length
          + if 0 < ((([(5, 10), (7, 30)] : Series).head?.getD (0, 0)).fst) then 2 else 1) ∧
    (to_rates [(5, 10), (7, 30)]).head?
        = some (if 0 < ((([(5, 10), (7, 30)] : Series).head?.getD (0, 0)).fst)
          then ((([(5, 10), (7, 30)] : Series).head?.getD (0, 0)).fst - 1, 0)
          else ((([(5, 10), (7, 30)] : Series).head?.getD (0, 0)).fst, 0)) ∧
    ((to_rates [(5, 10), (7, 30)]).drop
        (if 0 < ((([(5, 10), (7, 30)] : Series).head?.getD (0, 0)).fst) then 1 else 0)).head?
        = some ((([(5, 10), (7, 30)] : Series).head?.getD (0, 0)).fst, 0) ∧
    (to_rates [(5, 10), (7, 30)]).getLast?
        = some ((([(5, 10), (7, 30)] : Series).getLast?.getD (0, 0)).fst + 1, 0)) :=
  ⟨by decide, (to_rates_structure [(5, 10), (7, 30)]).2 (by decide)⟩

/-- C9 counterexample: the resampled series starts at timestamp 0, so the
RateConverter omits the leading sentinel (`checked_sub` yields `None` at
0) and the rate series has 4 points — not the claimed 5-point series
beginning with a `(-1, 0)` sample, which is not even expressible on the
u64 microsecond timeline. -/
theorem scenario_rate_series_cex :
    to_rates (interpolate [(0, 0), (1000000, 1000000)] 500000)
      = [(0, 0), (500000, 8), (1000000, 8), (1000001, 0)] ∧
    (to_rates (interpolate [(0, 0), (1000000, 1000000)] 500000)).length ≠ 5 := by
  have h1 : interpolate [(0, (0 : ℚ)), (1000000, 1000000)] 500000
      = [(0, 0), (500000, 500000), (1000000, 1000000)] := by
    norm_num [interpolate, gridMin, gridMax, gridPoints, interpValue, partitionPoint,
      List.findIdx_cons, List.findIdx_nil, List.range_succ]
  have h2 : to_rates [((0 : Nat), (0 : ℚ)), (500000, 500000), (1000000, 1000000)]
      = [(0, 0), (500000, 8), (1000000, 8), (1000001, 0)] := by
    norm_num [to_rates, ratesBase, ratesTail, rateOf]
  rw [h1, h2]
  exact ⟨rfl, by decide⟩

/-- C9 (amended): the single stream `(0,0),(1000000,1000000)` at interval
500000 µs resamples to `(0,0),(500000,500000),(1000000,1000000)`; its rate
series is `(0,0),(500000,8),(1000000,8),(1000001,0)` (8 Mbps plateau) —
the leading zero sentinel is omitted because the first timestamp is 0. -/
theorem scenario_end_to_end_eval :
    interpolate [(0, 0), (1000000, 1000000)] 500000
      = [(0, 0), (500000, 500000), (1000000, 1000000)] ∧
    to_rates (interpolate [(0, 0), (1000000, 1000000)] 500000)
      = [(0, 0), (500000, 8), (1000000, 8), (1000001, 0)] := by
  have h1 : interpolate [(0, (0 : ℚ)), (1000000, 1000000)] 500000
      = [(0, 0), (500000, 500000), (1000000, 1000000)] := by
    norm_num [interpolate, gridMin, gridMax, gridPoints, interpValue, partitionPoint,
      List.findIdx_cons, List.findIdx_nil, List.range_succ]
  refine ⟨h1, ?_⟩
  rw [h1]
  norm_num [to_rates, ratesBase, ratesTail, rateOf]

/-- C8 counterexample: `+∞` is a non-finite `f64` value that `float_max`
does not treat as "no information": `float_max [inf]` returns `inf`, not
the 100.0 fallback, although the input contains no finite value — the
code only special-cases NaN (`is_nan`), not all non-finite values. -/
theorem float_max_nonfinite_cex :
    F.isFinite F.inf = false ∧
    float_max [F.inf] = F.inf ∧
    float_max [F.inf] ≠ F.num 100 := by
  refine ⟨rfl, rfl, by decide⟩

/-- C8 (amended): `float_max` folds with a max that treats NaN — and only
NaN — as no information (any value beats a NaN accumulator), returns the
fallback 100.0 exactly when the input is empty or all-NaN, and never
fails; the three specified examples evaluate as stated. -/
theorem float_max_nan_fallback (l : List F) (h : ∀ x ∈ l, x.isNan = true) :
    float_max l = F.num 100 ∧
    float_max [] = F.num 100 ∧
    float_max [F.nan, F.nan] = F.num 100 ∧
    float_max [F.num 3, F.nan, F.num 7] = F.num 7 ∧
    ∀ b : F, fmax F.nan b = b := by
  have hfold : ∀ (m : List F), (∀ x ∈ m, x.isNan = true) →
      m.foldl fmax F.nan = F.nan := by
    intro m
    induction m with
    | nil => intro _; rfl
    | cons a t ih =>
      intro hm
      have ha : a = F.nan := by
        have h2 := hm a (List.mem_cons_self a t)
        cases a
        · rfl
        all_goals simp [F.isNan] at h2
      rw [List.foldl_cons, ha]
      exact ih (fun x hx => hm x (List.mem_cons_of_mem a hx))
  refine ⟨?_, rfl, rfl, ?_, fun b => by cases b <;> rfl⟩
  · rw [float_max, hfold l h]
    rfl
  · have hmax : max (3 : ℚ) 7 = 7 := by norm_num
    simp [float_max, fmax, F.isNan, hmax]

/-- Witness for the amended C8 at the all-NaN input `[NaN]`. -/
theorem float_max_nan_fallback_witness :
    (∀ x ∈ [F.nan], x.isNan = true) ∧
    (float_max [F.nan] = F.num 100 ∧ float_max [] = F.num 100 ∧
      float_max [F.nan, F.nan] = F.num 100 ∧
      float_max [F.num 3, F.nan, F.num 7] = F.num 7 ∧
      ∀ b : F, fmax F.nan b = b) :=
  ⟨by decide, float_max_nan_fallback [F.nan] (by decide)⟩

/-- C7: the ResultAssembler computes `both_bytes` as `Some` of the
aggregation of the both-download and both-upload category series exactly
when the run reports a simultaneous-both phase; when it reports a both
phase but either both-category is absent, the `.unwrap()` calls panic (no
partial sum and no default is produced); without a both phase the field
is `None`. -/
theorem bothBytes_spec (r : RawResult) (hI : 0 < r.bandwidth_interval) :
    (r.bothFlag = false → bothBytes r = some none) ∧
    (r.bothFlag = true → hasCategory r true true → hasCategory r false true →
      ∃ ds us total, findCategory r true true = some (some ds) ∧
        findCategory r false true = some (some us) ∧
        sum_bytes [ds, us] r.bandwidth_interval = some total ∧
        bothBytes r = some (some total)) ∧
    (r.bothFlag = true → ¬(hasCategory r true true ∧ hasCategory r false true) →
      bothBytes r = none) := by
  have hcat : ∀ d b : Bool,
      (hasCategory r d b → ∃ v, findCategory r d b = some (some v)) ∧
      (¬hasCategory r d b → findCategory r d b = some none) := by
    intro d b
    constructor
    · intro hc
      obtain ⟨g, hg⟩ := Option.isSome_iff_exists.mp hc
      obtain ⟨v, hv⟩ := Option.isSome_iff_exists.mp
        (sum_bytes_isSome (g.streams.map to_float) r.bandwidth_interval hI)
      refine ⟨v, ?_⟩
      rw [findCategory, hg]
      simp [hv]
    · intro hc
      have hfind : r.stream_groups.find? (fun g => g.download == d && g.both == b)
          = none := by
        cases hf : r.stream_groups.find? (fun g => g.download == d && g.both == b) with
        | none => rfl
        | some g => exact absurd (by simp [hasCategory, hf]) hc
      rw [findCategory, hfind]
  refine ⟨?_, ?_, ?_⟩
  · intro hflag
    have hd : ∃ d0, findCategory r true true = some d0 := by
      by_cases hc : hasCategory r true true
      · obtain ⟨v, hv⟩ := (hcat true true).1 hc
        exact ⟨some v, hv⟩
      · exact ⟨none, (hcat true true).2 hc⟩
    have hu : ∃ u0, findCategory r false true = some u0 := by
      by_cases hc : hasCategory r false true
      · obtain ⟨v, hv⟩ := (hcat false true).1 hc
        exact ⟨some v, hv⟩
      · exact ⟨none, (hcat false true).2 hc⟩
    obtain ⟨d0, hd⟩ := hd
    obtain ⟨u0, hu⟩ := hu
    rw [bothBytes, hd, hu]
    simp [hflag]
  · intro hflag h1 h2
    obtain ⟨ds, hds⟩ := (hcat true true).1 h1
    obtain ⟨us, hus⟩ := (hcat false true).1 h2
    obtain ⟨total, htotal⟩ := Option.isSome_iff_exists.mp
      (sum_bytes_isSome [ds, us] r.bandwidth_interval hI)
    refine ⟨ds, us, total, hds, hus, htotal, ?_⟩
    rw [bothBytes, hds, hus]
    simp [hflag, htotal]
  · intro hflag hnot
    by_cases h1 : hasCategory r true true
    · have h2 : ¬hasCategory r false true := fun h2 => hnot ⟨h1, h2⟩
      obtain ⟨ds, hds⟩ := (hcat true true).1 h1
      have hus := (hcat false true).2 h2
      rw [bothBytes, hds, hus]
      simp [hflag]
    · have hds := (hcat true true).2 h1
      have hu : ∃ u0, findCategory r false true = some u0 := by
        by_cases hc : hasCategory r false true
        · obtain ⟨v, hv⟩ := (hcat false true).1 hc
          exact ⟨some v, hv⟩
        · exact ⟨none, (hcat false true).2 hc⟩
      obtain ⟨u0, hu⟩ := hu
      rw [bothBytes, hds, hu]
      simp [hflag]

/-- Witness for C7 at a concrete run with both both-categories present. -/
theorem bothBytes_spec_witness :
    0 < exampleBothRun.bandwidth_interval ∧ exampleBothRun.bothFlag = true ∧
    hasCategory exampleBothRun true true ∧ hasCategory exampleBothRun false true ∧
    ∃ ds us total, findCategory exampleBothRun true true = some (some ds) ∧
      findCategory exampleBothRun false true = some (some us) ∧
      sum_bytes [ds, us] exampleBothRun.bandwidth_interval = some total ∧
      bothBytes exampleBothRun = some (some total) :=
  ⟨by decide, by decide, by decide, by decide,
    (bothBytes_spec exampleBothRun (by decide)).2.1 (by decide) (by decide) (by decide)⟩
